import Mathlib

/-!
Shallow embedding of the jigsaw-puzzle program in src/main.py.

Coordinates are mathematical integers (Python ints). A pygame Surface is
modelled by its pixel dimensions, which is all the verified claims depend
on. A pygame Rect carries an integer top-left corner and a size.
Python object identity of a PuzzlePiece is modelled by a ghost field pid,
never read by any embedded operation.
-/

/-- SNAP_DISTANCE constant from main.py line 16. -/
def SNAP_DISTANCE : Int := 20

/-- A pygame Surface, reduced to its dimensions (get_size). -/
structure Surface where
  w : Nat
  h : Nat
deriving DecidableEq, Repr

/-- A pygame Rect: integer top-left corner plus a size. -/
structure Rect where
  x : Int
  y : Int
  w : Nat
  h : Nat
deriving DecidableEq, Repr

/-- pygame Rect.collidepoint: the point is inside the rectangle, with the
right and bottom edges excluded. -/
def Rect.collidepoint (r : Rect) (p : Int × Int) : Bool :=
  decide (r.x ≤ p.1) && decide (p.1 < r.x + r.w) &&
  decide (r.y ≤ p.2) && decide (p.2 < r.y + r.h)

/-- The PuzzlePiece class of main.py. The field pid is a ghost identity
standing for Python object identity; no embedded operation reads it. -/
structure PuzzlePiece where
  pid : Nat
  image : Surface
  correct_pos : Int × Int
  rect : Rect
  moving : Bool
deriving DecidableEq, Repr

/-- PuzzlePiece.__init__: the rect is created from the image with its
top-left at correct_pos, and moving starts false. -/
def PuzzlePiece.init (pid : Nat) (image : Surface) (correct_pos : Int × Int) :
    PuzzlePiece :=
  { pid := pid
    image := image
    correct_pos := correct_pos
    rect := { x := correct_pos.1, y := correct_pos.2, w := image.w, h := image.h }
    moving := false }

/-- PuzzlePiece.snap_to_place: if both coordinates of the current top-left
are strictly within SNAP_DISTANCE of the target, move the rect exactly onto
the target and return true; otherwise leave the piece alone and return
false. Returns the updated piece together with the boolean result. -/
def snap_to_place (pc : PuzzlePiece) : PuzzlePiece × Bool :=
  if |pc.rect.x - pc.correct_pos.1| < SNAP_DISTANCE ∧
     |pc.rect.y - pc.correct_pos.2| < SNAP_DISTANCE then
    ({ pc with rect := { pc.rect with x := pc.correct_pos.1, y := pc.correct_pos.2 } }, true)
  else
    (pc, false)

/-- create_puzzle_pieces from main.py: cut the image into a
grid_rows x grid_cols grid, row-major. Each piece image is the
piece_width x piece_height subsurface, and the correct position is
start_pos shifted by the cell offset. Integer division as in Python. -/
def create_puzzle_pieces (image : Surface) (grid_rows grid_cols : Nat)
    (start_pos : Int × Int) : List PuzzlePiece :=
  let piece_width := image.w / grid_cols
  let piece_height := image.h / grid_rows
  (List.range grid_rows).flatMap fun row =>
    (List.range grid_cols).map fun col =>
      PuzzlePiece.init (row * grid_cols + col)
        { w := piece_width, h := piece_height }
        (start_pos.1 + col * piece_width, start_pos.2 + row * piece_height)

/-- Python random.randint drawn through an oracle f: defined on the range
a..b inclusive when a ≤ b, and a ValueError (none) otherwise. -/
def randint (f : Int → Int → Int) (a b : Int) : Option Int :=
  if a ≤ b then some (f a b) else none

/-- shuffle_pieces from main.py: each piece receives a random top-left with
x drawn from randint 0 (screen width - piece width) and y drawn from
randint 0 (screen height - piece height). The oracle rnd models the random
source, indexed by the call counter k so distinct calls are independent.
A ValueError from randint aborts the whole run (none). -/
def shuffle_pieces (rnd : Nat → Int → Int → Int) :
    List PuzzlePiece → Rect → Nat → Option (List PuzzlePiece)
  | [], _, _ => some []
  | pc :: ps, screen_rect, k =>
    match randint (rnd k) 0 ((screen_rect.w : Int) - (pc.rect.w : Int)),
          randint (rnd (k + 1)) 0 ((screen_rect.h : Int) - (pc.rect.h : Int)) with
    | some x, some y =>
      match shuffle_pieces rnd ps screen_rect (k + 2) with
      | some rest => some ({ pc with rect := { pc.rect with x := x, y := y } } :: rest)
      | none => none
    | _, _ => none

/-- The mutable state of the main loop: the render list of pieces, the
index of selected_piece inside it (none when selected_piece is None), and
the grab offsets offset_x, offset_y. The selected piece is tracked by
position in the list, which is faithful because the only list mutation,
remove-then-append on a mouse-down hit, reassigns the selection to the
appended piece. -/
structure GameState where
  pieces : List PuzzlePiece
  selected : Option Nat
  offset_x : Int
  offset_y : Int
deriving DecidableEq, Repr

/-- The pointer events consumed by the main loop. other covers every event
the loop ignores for piece state (quit, non-left buttons, window events). -/
inductive Event where
  | mouseDown (pos : Int × Int)
  | mouseMove (pos : Int × Int)
  | mouseUp
  | other
deriving DecidableEq, Repr

/-- The reversed-iteration hit test with remove of main.py lines 170-180:
find the piece latest in the list whose rect contains pos, and return the
list without it together with the piece itself. none when no piece is hit. -/
def extractHit (pos : Int × Int) : List PuzzlePiece →
    Option (List PuzzlePiece × PuzzlePiece)
  | [] => none
  | pc :: ps =>
    match extractHit pos ps with
    | some (rest, hit) => some (pc :: rest, hit)
    | none => if pc.rect.collidepoint pos then some (ps, pc) else none

/-- The new piece produced by the MOUSEMOTION branch of main: the rect
top-left becomes the event position minus the grab offsets. -/
def movedPiece (pc : PuzzlePiece) (pos : Int × Int) (ox oy : Int) : PuzzlePiece :=
  { pc with rect := { pc.rect with x := pos.1 - ox, y := pos.2 - oy } }

/-- One iteration of the event dispatch in main (lines 162-194). -/
def handleEvent (s : GameState) : Event → GameState
  | .mouseDown pos =>
    match extractHit pos s.pieces with
    | none => s
    | some (rest, pc) =>
      { pieces := rest ++ [{ pc with moving := true }]
        selected := some rest.length
        offset_x := pos.1 - pc.rect.x
        offset_y := pos.2 - pc.rect.y }
  | .mouseMove pos =>
    match s.selected with
    | none => s
    | some j =>
      match s.pieces[j]? with
      | none => s
      | some pc =>
        if pc.moving then
          { s with pieces := s.pieces.set j (movedPiece pc pos s.offset_x s.offset_y) }
        else s
  | .mouseUp =>
    match s.selected with
    | none => s
    | some j =>
      match s.pieces[j]? with
      | none => { s with selected := none }
      | some pc =>
        { s with
            pieces := s.pieces.set j (snap_to_place { pc with moving := false }).1
            selected := none }
  | .other => s

/-- Run the event loop over a list of pointer events in arrival order. -/
def runEvents (s : GameState) (es : List Event) : GameState :=
  es.foldl handleEvent s

/-- Number of pieces currently flagged as being dragged. -/
def movingCount (l : List PuzzlePiece) : Nat :=
  (l.filter (fun pc => pc.moving)).length

/-- Ghost identity of the currently dragged piece, read off the selection. -/
def draggingId (s : GameState) : Option Nat :=
  match s.selected with
  | none => none
  | some j => (s.pieces[j]?).map (fun pc => pc.pid)

/-- The event is a left mouse-button press. -/
def Event.isDown : Event → Prop
  | .mouseDown _ => True
  | _ => False

/-- The event is a mouse motion. -/
def Event.isMove : Event → Prop
  | .mouseMove _ => True
  | _ => False

/-- Well-formed pointer input from a state: every mouse-down arrives while
no piece is selected, matching a physical device on which the left button
is released before it is pressed again. -/
def WFFrom : GameState → List Event → Prop
  | _, [] => True
  | s, e :: es => (e.isDown → s.selected = none) ∧ WFFrom (handleEvent s e) es

/-- Drag-controller invariant: either nothing is selected and no piece is
moving, or the selected piece is the last of the render list, it alone is
moving, and the selection index points at it. -/
def DragInv (s : GameState) : Prop :=
  (s.selected = none ∧ ∀ pc ∈ s.pieces, pc.moving = false) ∨
  (∃ l pc, s.pieces = l ++ [pc] ∧ s.selected = some l.length ∧
    pc.moving = true ∧ ∀ q ∈ l, q.moving = false)

/-- The target rectangle of a piece: the half-open box of the image size
anchored at correct_pos. -/
def targetContains (pc : PuzzlePiece) (q : Int × Int) : Prop :=
  pc.correct_pos.1 ≤ q.1 ∧ q.1 < pc.correct_pos.1 + pc.image.w ∧
  pc.correct_pos.2 ≤ q.2 ∧ q.2 < pc.correct_pos.2 + pc.image.h

/-! ## General helper lemmas -/

/-- Setting the final slot of a list that ends in a singleton. -/
theorem set_append_singleton {α : Type} (l : List α) (x y : α) :
    (l ++ [x]).set l.length y = l ++ [y] := by
  induction l with
  | nil => rfl
  | cons a l ih => simp [ih]

/-- snap_to_place never changes the moving flag. -/
theorem snap_to_place_moving (pc : PuzzlePiece) :
    (snap_to_place pc).1.moving = pc.moving := by
  unfold snap_to_place
  split <;> rfl

/-- A failed snap_to_place leaves the piece unchanged. -/
theorem snap_to_place_fail (pc : PuzzlePiece)
    (h : (snap_to_place pc).2 = false) : (snap_to_place pc).1 = pc := by
  by_cases hc : |pc.rect.x - pc.correct_pos.1| < SNAP_DISTANCE ∧
      |pc.rect.y - pc.correct_pos.2| < SNAP_DISTANCE
  · simp [snap_to_place, hc] at h
  · simp [snap_to_place, hc]

/-- A piece near its target used as a concrete sample. -/
def pieceNear : PuzzlePiece :=
  { pid := 0, image := ⟨30, 30⟩, correct_pos := (50, 50),
    rect := ⟨48, 51, 30, 30⟩, moving := false }

/-- A piece far from its target used as a concrete sample. -/
def pieceFar : PuzzlePiece :=
  { pid := 1, image := ⟨30, 30⟩, correct_pos := (50, 50),
    rect := ⟨80, 80, 30, 30⟩, moving := false }

/-! ## C1: snap tolerance behaviour -/

/-- C1: snap_to_place returns true exactly when both coordinates of the
current top-left are strictly within 20 of the target; a successful snap
moves the top-left exactly onto target_position, and a failed one leaves
the piece untouched. -/
theorem snap_to_place_spec (pc : PuzzlePiece) :
    ((snap_to_place pc).2 = true ↔
      |pc.rect.x - pc.correct_pos.1| < 20 ∧ |pc.rect.y - pc.correct_pos.2| < 20) ∧
    ((snap_to_place pc).2 = true →
      (snap_to_place pc).1.rect.x = pc.correct_pos.1 ∧
      (snap_to_place pc).1.rect.y = pc.correct_pos.2) ∧
    ((snap_to_place pc).2 = false → (snap_to_place pc).1 = pc) := by
  unfold snap_to_place SNAP_DISTANCE
  split <;> simp_all

/-- Witness for C1 at the concrete piece pieceNear. -/
theorem snap_to_place_spec_witness :
    ((snap_to_place pieceNear).2 = true ↔
      |pieceNear.rect.x - pieceNear.correct_pos.1| < 20 ∧
      |pieceNear.rect.y - pieceNear.correct_pos.2| < 20) ∧
    ((snap_to_place pieceNear).2 = true →
      (snap_to_place pieceNear).1.rect.x = pieceNear.correct_pos.1 ∧
      (snap_to_place pieceNear).1.rect.y = pieceNear.correct_pos.2) ∧
    ((snap_to_place pieceNear).2 = false → (snap_to_place pieceNear).1 = pieceNear) :=
  snap_to_place_spec pieceNear

/-! ## C9: snap idempotence -/

/-- C9: a second snap_to_place with no movement in between returns the same
boolean as the first, and the second call never moves the piece further. -/
theorem snap_to_place_idem (pc : PuzzlePiece) :
    (snap_to_place (snap_to_place pc).1).2 = (snap_to_place pc).2 ∧
    (snap_to_place (snap_to_place pc).1).1.rect = (snap_to_place pc).1.rect := by
  unfold snap_to_place SNAP_DISTANCE
  split <;> simp_all

/-- Witness for C9 at the concrete piece pieceFar. -/
theorem snap_to_place_idem_witness :
    (snap_to_place (snap_to_place pieceFar).1).2 = (snap_to_place pieceFar).2 ∧
    (snap_to_place (snap_to_place pieceFar).1).1.rect = (snap_to_place pieceFar).1.rect :=
  snap_to_place_idem pieceFar

/-! ## C10: freshly created pieces start solved -/

/-- C10: every piece produced by create_puzzle_pieces starts with its
current top-left equal to its target, so an immediate snap_to_place
succeeds and does not move the piece. -/
theorem create_pieces_start_at_target (image : Surface) (R C : Nat)
    (sp : Int × Int) (pc : PuzzlePiece)
    (hm : pc ∈ create_puzzle_pieces image R C sp) :
    pc.rect.x = pc.correct_pos.1 ∧ pc.rect.y = pc.correct_pos.2 ∧
    (snap_to_place pc).2 = true ∧ (snap_to_place pc).1 = pc := by
  simp only [create_puzzle_pieces, List.mem_flatMap, List.mem_map,
    List.mem_range] at hm
  obtain ⟨row, hrow, col, hcol, rfl⟩ := hm
  refine ⟨rfl, rfl, ?_, ?_⟩ <;>
    simp [snap_to_place, SNAP_DISTANCE, PuzzlePiece.init]

/-- Witness for C10 on a concrete 2 x 2 puzzle from a 100 x 100 image. -/
theorem create_pieces_start_at_target_witness :
    PuzzlePiece.init 0 ⟨50, 50⟩ (0, 0) ∈
      create_puzzle_pieces ⟨100, 100⟩ 2 2 (0, 0) ∧
    ((PuzzlePiece.init 0 ⟨50, 50⟩ (0, 0)).rect.x =
      (PuzzlePiece.init 0 ⟨50, 50⟩ (0, 0)).correct_pos.1 ∧
     (PuzzlePiece.init 0 ⟨50, 50⟩ (0, 0)).rect.y =
      (PuzzlePiece.init 0 ⟨50, 50⟩ (0, 0)).correct_pos.2 ∧
     (snap_to_place (PuzzlePiece.init 0 ⟨50, 50⟩ (0, 0))).2 = true ∧
     (snap_to_place (PuzzlePiece.init 0 ⟨50, 50⟩ (0, 0))).1 =
      PuzzlePiece.init 0 ⟨50, 50⟩ (0, 0)) :=
  ⟨by decide, create_pieces_start_at_target ⟨100, 100⟩ 2 2 (0, 0) _ (by decide)⟩

/-! ## Hit-test lemmas -/

/-- If no piece of the list contains the point, the hit test fails. -/
theorem extractHit_eq_none (pos : Int × Int) (ps : List PuzzlePiece)
    (h : ∀ pc ∈ ps, pc.rect.collidepoint pos = false) :
    extractHit pos ps = none := by
  induction ps with
  | nil => rfl
  | cons a ps ih =>
    have ha := h a (List.mem_cons_self a ps)
    have hrest := ih (fun pc hpc => h pc (List.mem_cons_of_mem a hpc))
    simp [extractHit, hrest, ha]

/-- The hit test returns the latest listed piece containing the point,
together with the list with that piece removed. -/
theorem extractHit_split (pos : Int × Int) (pre : List PuzzlePiece)
    (pc : PuzzlePiece) (post : List PuzzlePiece)
    (hc : pc.rect.collidepoint pos = true)
    (hpost : ∀ q ∈ post, q.rect.collidepoint pos = false) :
    extractHit pos (pre ++ pc :: post) = some (pre ++ post, pc) := by
  induction pre with
  | nil => simp [extractHit, extractHit_eq_none pos post hpost, hc]
  | cons a pre ih => simp [extractHit, ih]

/-- Both results of a successful hit test consist of pieces of the input. -/
theorem extractHit_mem (pos : Int × Int) :
    ∀ (ps rest : List PuzzlePiece) (pc : PuzzlePiece),
      extractHit pos ps = some (rest, pc) →
      pc ∈ ps ∧ ∀ q ∈ rest, q ∈ ps := by
  intro ps
  induction ps with
  | nil => intro rest pc h; simp [extractHit] at h
  | cons a ps ih =>
    intro rest pc h
    simp only [extractHit] at h
    cases hrec : extractHit pos ps with
    | some v =>
      rw [hrec] at h
      obtain ⟨rest0, hit0⟩ := v
      simp only [Option.some.injEq, Prod.mk.injEq] at h
      obtain ⟨hrest, hpc⟩ := h
      obtain ⟨hm, hsub⟩ := ih rest0 hit0 hrec
      subst hrest hpc
      refine ⟨List.mem_cons_of_mem a hm, ?_⟩
      intro q hq
      rcases List.mem_cons.mp hq with h1 | h2
      · exact h1 ▸ List.mem_cons_self a ps
      · exact List.mem_cons_of_mem a (hsub q h2)
    | none =>
      rw [hrec] at h
      by_cases hcol : a.rect.collidepoint pos = true
      · simp only [hcol, if_true] at h
        obtain ⟨hrest, hpc⟩ := Prod.mk.injEq .. ▸ (Option.some.injEq .. ▸ h)
        subst hpc
        have hrest2 : ps = rest := by simpa using hrest
        subst hrest2
        exact ⟨List.mem_cons_self a ps, fun q hq => List.mem_cons_of_mem a hq⟩
      · simp [hcol] at h

/-! ## C4: mouse-down selection and bring-to-front -/

/-- C4: a left mouse-down in the idle state hit-tests the render list in
reverse draw order; a miss changes nothing, while a hit on the piece whose
rect contains the point (with every later-drawn piece missing it) captures
the grab offset, flags the piece as moving, moves it to the end of the
list, and selects it; afterwards any point inside that piece hits it
first. -/
theorem mouseDown_spec (s : GameState) (pos : Int × Int)
    (_hidle : s.selected = none) :
    ((∀ pc ∈ s.pieces, pc.rect.collidepoint pos = false) →
      handleEvent s (.mouseDown pos) = s) ∧
    (∀ pre pc post, s.pieces = pre ++ pc :: post →
      pc.rect.collidepoint pos = true →
      (∀ q ∈ post, q.rect.collidepoint pos = false) →
      handleEvent s (.mouseDown pos) =
        { pieces := (pre ++ post) ++ [{ pc with moving := true }]
          selected := some (pre ++ post).length
          offset_x := pos.1 - pc.rect.x
          offset_y := pos.2 - pc.rect.y } ∧
      (∀ pos2, pc.rect.collidepoint pos2 = true →
        extractHit pos2 ((pre ++ post) ++ [{ pc with moving := true }]) =
          some (pre ++ post, { pc with moving := true }))) := by
  constructor
  · intro hmiss
    simp [handleEvent, extractHit_eq_none pos s.pieces hmiss]
  · intro pre pc post hsplit hc hpost
    constructor
    · simp [handleEvent, hsplit, extractHit_split pos pre pc post hc hpost]
    · intro pos2 hc2
      have : (⟨pc.pid, pc.image, pc.correct_pos, pc.rect, true⟩ :
          PuzzlePiece).rect.collidepoint pos2 = true := hc2
      simpa using
        extractHit_split pos2 (pre ++ post) { pc with moving := true } [] this
          (by intro q hq; simp at hq)

/-- A concrete idle state holding two pieces, used by witnesses. -/
def twoPieceState : GameState :=
  { pieces := [pieceNear, pieceFar], selected := none, offset_x := 0, offset_y := 0 }

/-- The state twoPieceState after picking up pieceFar at point (85, 85). -/
def twoPieceStatePicked : GameState :=
  { pieces := [pieceNear] ++ [{ pieceFar with moving := true }]
    selected := some 1
    offset_x := 85 - pieceFar.rect.x
    offset_y := 85 - pieceFar.rect.y }

/-- Witness for C4: two stacked pieces, the later-drawn one is picked. -/
theorem mouseDown_spec_witness :
    twoPieceState.selected = none ∧
    twoPieceState.pieces = [pieceNear] ++ pieceFar :: [] ∧
    pieceFar.rect.collidepoint (85, 85) = true ∧
    handleEvent twoPieceState (.mouseDown (85, 85)) = twoPieceStatePicked :=
  ⟨rfl, rfl, by decide, by
    have h := ((mouseDown_spec twoPieceState (85, 85) rfl).2 [pieceNear]
      pieceFar [] rfl (by decide) (by intro q hq; simp at hq)).1
    simpa [twoPieceStatePicked] using h⟩

/-! ## C5: mouse motion during a drag -/

/-- C5: while a piece is selected and moving, a mouse motion to p places
the top-left of the selected piece at p minus the grab offset, and the
selection is unchanged, so the drag continues. -/
theorem mouseMove_spec (s : GameState) (j : Nat) (pc : PuzzlePiece)
    (p : Int × Int) (hs : s.selected = some j) (hj : s.pieces[j]? = some pc)
    (hm : pc.moving = true) :
    handleEvent s (.mouseMove p) =
      { s with pieces := s.pieces.set j (movedPiece pc p s.offset_x s.offset_y) } ∧
    (movedPiece pc p s.offset_x s.offset_y).rect.x = p.1 - s.offset_x ∧
    (movedPiece pc p s.offset_x s.offset_y).rect.y = p.2 - s.offset_y ∧
    (movedPiece pc p s.offset_x s.offset_y).moving = true ∧
    (handleEvent s (.mouseMove p)).selected = some j ∧
    (handleEvent s (.mouseMove p)).pieces[j]? =
      some (movedPiece pc p s.offset_x s.offset_y) := by
  have hjlt : j < s.pieces.length := by
    rcases List.getElem?_eq_some_iff.mp hj with ⟨hlt, _⟩
    exact hlt
  have heq : handleEvent s (.mouseMove p) =
      { s with pieces := s.pieces.set j (movedPiece pc p s.offset_x s.offset_y) } := by
    simp [handleEvent, hs, hj, hm]
  refine ⟨heq, rfl, rfl, hm, by rw [heq]; exact hs, ?_⟩
  rw [heq]
  simpa using List.getElem?_set_self (l := s.pieces) (i := j) hjlt

/-- The moving copy of pieceFar grabbed with offset (5, 5), for the C5
witness. -/
def grabbedPiece : PuzzlePiece := { pieceFar with moving := true }

/-- The state in which grabbedPiece alone is being dragged with grab
offset (5, 5). -/
def dragState : GameState :=
  { pieces := [grabbedPiece], selected := some 0, offset_x := 5, offset_y := 5 }

/-- Witness for C5: the scenario of the spec, grab offset (5, 5) and a
motion to (100, 100) put the top-left at (95, 95). -/
theorem mouseMove_spec_witness :
    dragState.selected = some 0 ∧
    dragState.pieces[0]? = some grabbedPiece ∧
    grabbedPiece.moving = true ∧
    handleEvent dragState (.mouseMove (100, 100)) =
      { dragState with
          pieces := dragState.pieces.set 0 (movedPiece grabbedPiece (100, 100) 5 5) } ∧
    ((handleEvent dragState (.mouseMove (100, 100))).pieces[0]?).map
      (fun pc => (pc.rect.x, pc.rect.y)) = some (95, 95) :=
  ⟨rfl, rfl, rfl,
    (mouseMove_spec dragState 0 grabbedPiece (100, 100) rfl rfl rfl).1,
    by decide⟩

/-! ## C6: mouse release ends the drag unconditionally -/

/-- C6: a left mouse release while a piece is selected clears its moving
flag, applies snap_to_place to it, stores the result back, and clears the
selection no matter whether the snap succeeded; when the snap fails the
piece keeps the rect it was dropped with. -/
theorem mouseUp_spec (s : GameState) (j : Nat) (pc : PuzzlePiece)
    (hs : s.selected = some j) (hj : s.pieces[j]? = some pc) :
    handleEvent s .mouseUp =
      { s with
          pieces := s.pieces.set j (snap_to_place { pc with moving := false }).1
          selected := none } ∧
    (snap_to_place { pc with moving := false }).1.moving = false ∧
    ((snap_to_place { pc with moving := false }).2 = false →
      (snap_to_place { pc with moving := false }).1.rect = pc.rect) := by
  refine ⟨by simp [handleEvent, hs, hj], snap_to_place_moving _, ?_⟩
  intro hfail
  rw [snap_to_place_fail _ hfail]

/-- Witness for C6: dropping the dragged piece far from its target keeps
its dropped position and clears the selection. -/
theorem mouseUp_spec_witness :
    dragState.selected = some 0 ∧
    dragState.pieces[0]? = some grabbedPiece ∧
    handleEvent dragState .mouseUp =
      { dragState with
          pieces := dragState.pieces.set 0
            (snap_to_place { grabbedPiece with moving := false }).1
          selected := none } ∧
    (snap_to_place { grabbedPiece with moving := false }).1.moving = false ∧
    ((snap_to_place { grabbedPiece with moving := false }).2 = false →
      (snap_to_place { grabbedPiece with moving := false }).1.rect =
        grabbedPiece.rect) :=
  ⟨rfl, rfl, (mouseUp_spec dragState 0 grabbedPiece rfl rfl).1,
    (mouseUp_spec dragState 0 grabbedPiece rfl rfl).2.1,
    (mouseUp_spec dragState 0 grabbedPiece rfl rfl).2.2⟩

/-! ## Grid indexing and cell arithmetic lemmas -/

/-- Length of a row-major double traversal. -/
theorem flatMap_range_map_length {α : Type} (f : Nat → Nat → α) (R C : Nat) :
    ((List.range R).flatMap (fun r => (List.range C).map (f r))).length = R * C := by
  induction R with
  | zero => simp
  | succ R ih =>
    rw [List.range_succ, List.flatMap_append, List.length_append, ih]
    simp [Nat.succ_mul]

/-- Element lookup in a row-major double traversal. -/
theorem flatMap_range_map_getElem {α : Type} (f : Nat → Nat → α) (R C r c : Nat)
    (hr : r < R) (hc : c < C) :
    ((List.range R).flatMap (fun r => (List.range C).map (f r)))[r * C + c]? =
      some (f r c) := by
  induction R with
  | zero => exact absurd hr (Nat.not_lt_zero r)
  | succ R ih =>
    rw [List.range_succ, List.flatMap_append]
    rcases Nat.lt_or_ge r R with h | h
    · have hidx : r * C + c <
          ((List.range R).flatMap (fun r => (List.range C).map (f r))).length := by
        rw [flatMap_range_map_length]
        calc r * C + c < r * C + C := Nat.add_lt_add_left hc _
          _ = (r + 1) * C := (Nat.succ_mul r C).symm
          _ ≤ R * C := Nat.mul_le_mul_right C h
      rw [List.getElem?_append_left hidx]
      exact ih h
    · have hrR : r = R := Nat.le_antisymm (Nat.lt_succ_iff.mp hr) h
      subst hrR
      have hlen :
          ((List.range r).flatMap (fun i => (List.range C).map (f i))).length =
            r * C := flatMap_range_map_length f r C
      rw [List.getElem?_append_right (by rw [hlen]; exact Nat.le_add_right _ _)]
      rw [hlen, Nat.add_sub_cancel_left]
      simp [List.getElem?_map, List.getElem?_range hc]

/-- The cell index of an offset along one axis: for a positive cell size pw
and an offset below W cells, division by pw lands in a unique cell. -/
theorem axis_cell (pw W d : Nat) (hpw : 0 < pw) (hd : d < W * pw) :
    d / pw < W ∧ (d / pw) * pw ≤ d ∧ d < (d / pw) * pw + pw := by
  refine ⟨(Nat.div_lt_iff_lt_mul hpw).mpr hd, Nat.div_mul_le_self d pw, ?_⟩
  have h1 : pw * (d / pw) + d % pw = d := Nat.div_add_mod d pw
  have h2 : d % pw < pw := Nat.mod_lt d hpw
  calc d = pw * (d / pw) + d % pw := h1.symm
    _ < pw * (d / pw) + pw := Nat.add_lt_add_left h2 _
    _ = (d / pw) * pw + pw := by rw [Nat.mul_comm]

/-- Two cells both containing the same offset coincide. -/
theorem cell_unique (pw a b d : Nat) (ha1 : a * pw ≤ d) (ha2 : d < a * pw + pw)
    (hb1 : b * pw ≤ d) (hb2 : d < b * pw + pw) : a = b := by
  rcases Nat.lt_trichotomy a b with h | h | h
  · exfalso
    have hcalc : d < d :=
      calc d < a * pw + pw := ha2
        _ = (a + 1) * pw := (Nat.succ_mul a pw).symm
        _ ≤ b * pw := Nat.mul_le_mul_right pw h
        _ ≤ d := hb1
    exact absurd hcalc (lt_irrefl d)
  · exact h
  · exfalso
    have hcalc : d < d :=
      calc d < b * pw + pw := hb2
        _ = (b + 1) * pw := (Nat.succ_mul b pw).symm
        _ ≤ a * pw := Nat.mul_le_mul_right pw h
        _ ≤ d := ha1
    exact absurd hcalc (lt_irrefl d)

/-- Along one axis, a coordinate inside the tiled band lies in exactly one
cell of size pw out of W, counted from the origin o. -/
theorem axis_exists (pw W : Nat) (o x : Int) (hpw : 0 < pw)
    (h1 : o ≤ x) (h2 : x < o + (W * pw : Nat)) :
    ∃ c : Nat, c < W ∧ o + (c * pw : Nat) ≤ x ∧
      x < o + (c * pw : Nat) + (pw : Nat) ∧
      ∀ c2 : Nat, o + (c2 * pw : Nat) ≤ x → x < o + (c2 * pw : Nat) + (pw : Nat) →
        c2 = c := by
  have hd0 : (0 : Int) ≤ x - o := sub_nonneg.mpr h1
  obtain ⟨d, hd⟩ : ∃ d : Nat, x = o + (d : Int) :=
    ⟨(x - o).toNat, by rw [Int.toNat_of_nonneg hd0]; ring⟩
  subst hd
  have hdW : d < W * pw := by
    have h3 : (d : Int) < ((W * pw : Nat) : Int) := lt_of_add_lt_add_left h2
    exact_mod_cast h3
  obtain ⟨hcW, hlo, hhi⟩ := axis_cell pw W d hpw hdW
  refine ⟨d / pw, hcW, ?_, ?_, ?_⟩
  · have h4 : ((d / pw * pw : Nat) : Int) ≤ (d : Int) := by exact_mod_cast hlo
    linarith
  · have h4 : (d : Int) < ((d / pw * pw : Nat) : Int) + (pw : Int) := by
      exact_mod_cast hhi
    linarith
  · intro c2 ha hb
    have ha2 : c2 * pw ≤ d := by
      have h5 : ((c2 * pw : Nat) : Int) ≤ (d : Int) := by linarith
      exact_mod_cast h5
    have hb2 : d < c2 * pw + pw := by
      have h6 : (d : Int) < ((c2 * pw : Nat) : Int) + (pw : Int) := by linarith
      exact_mod_cast h6
    exact cell_unique pw c2 (d / pw) d ha2 hb2 hlo hhi

/-- The row-major grid of pieces used by create_puzzle_pieces, abstracted
over the piece size. -/
def gridPieces (pw ph R C : Nat) (sp : Int × Int) : List PuzzlePiece :=
  (List.range R).flatMap fun r =>
    (List.range C).map fun c =>
      PuzzlePiece.init (r * C + c) ⟨pw, ph⟩
        (sp.1 + ((c * pw : Nat) : Int), sp.2 + ((r * ph : Nat) : Int))

/-- create_puzzle_pieces is exactly the abstract grid at the computed
piece size. -/
theorem create_puzzle_pieces_eq_gridPieces (image : Surface) (R C : Nat)
    (sp : Int × Int) :
    create_puzzle_pieces image R C sp =
      gridPieces (image.w / C) (image.h / R) R C sp := rfl

/-- A point lies in the tiled band exactly when exactly one grid slot has
it inside its target rectangle. -/
theorem gridPieces_tiling (pw ph R C : Nat) (sp : Int × Int)
    (hpw : 0 < pw) (hph : 0 < ph) (hC : 0 < C) (q : Int × Int) :
    (sp.1 ≤ q.1 ∧ q.1 < sp.1 + ((C * pw : Nat) : Int) ∧
     sp.2 ≤ q.2 ∧ q.2 < sp.2 + ((R * ph : Nat) : Int)) ↔
    ∃! k : Nat, ∃ pc, (gridPieces pw ph R C sp)[k]? = some pc ∧
      targetContains pc q := by
  have hlen : (gridPieces pw ph R C sp).length = R * C :=
    flatMap_range_map_length _ R C
  have hget : ∀ r c, r < R → c < C →
      (gridPieces pw ph R C sp)[r * C + c]? =
        some (PuzzlePiece.init (r * C + c) ⟨pw, ph⟩
          (sp.1 + ((c * pw : Nat) : Int), sp.2 + ((r * ph : Nat) : Int))) :=
    fun r c hr hc => flatMap_range_map_getElem _ R C r c hr hc
  constructor
  · rintro ⟨hx1, hx2, hy1, hy2⟩
    obtain ⟨c, hcC, hcx1, hcx2, hcu⟩ := axis_exists pw C sp.1 q.1 hpw hx1 hx2
    obtain ⟨r, hrR, hry1, hry2, hru⟩ := axis_exists ph R sp.2 q.2 hph hy1 hy2
    refine ⟨r * C + c, ⟨_, hget r c hrR hcC, ?_⟩, ?_⟩
    · exact ⟨hcx1, hcx2, hry1, hry2⟩
    · rintro k2 ⟨pc2, hget2, hcont2⟩
      have hk2len : k2 < R * C := by
        have h := (List.getElem?_eq_some_iff.mp hget2).1
        rwa [hlen] at h
      have hc2 : k2 % C < C := Nat.mod_lt _ hC
      have hr2 : k2 / C < R := (Nat.div_lt_iff_lt_mul hC).mpr hk2len
      have hk2eq : k2 = k2 / C * C + k2 % C := by
        rw [Nat.mul_comm]
        exact (Nat.div_add_mod k2 C).symm
      have hget2b := hget (k2 / C) (k2 % C) hr2 hc2
      rw [← hk2eq] at hget2b
      rw [hget2] at hget2b
      have hpc2 := Option.some.inj hget2b
      subst hpc2
      obtain ⟨ha1, ha2, hb1, hb2⟩ := hcont2
      have hceq : k2 % C = c := hcu (k2 % C) ha1 ha2
      have hreq : k2 / C = r := hru (k2 / C) hb1 hb2
      rw [hk2eq, hceq, hreq]
  · rintro ⟨k, ⟨pc, hget0, hcont0⟩, _⟩
    have hklen : k < R * C := by
      have h := (List.getElem?_eq_some_iff.mp hget0).1
      rwa [hlen] at h
    have hc2 : k % C < C := Nat.mod_lt _ hC
    have hr2 : k / C < R := (Nat.div_lt_iff_lt_mul hC).mpr hklen
    have hkeq : k = k / C * C + k % C := by
      rw [Nat.mul_comm]
      exact (Nat.div_add_mod k C).symm
    have hgetb := hget (k / C) (k % C) hr2 hc2
    rw [← hkeq] at hgetb
    rw [hget0] at hgetb
    have hpc := Option.some.inj hgetb
    subst hpc
    obtain ⟨ha1, ha2, hb1, hb2⟩ := hcont0
    have hxlow : sp.1 ≤ q.1 :=
      le_trans (le_add_of_nonneg_right (Int.natCast_nonneg _)) ha1
    have hylow : sp.2 ≤ q.2 :=
      le_trans (le_add_of_nonneg_right (Int.natCast_nonneg _)) hb1
    have hxcell : ((k % C * pw : Nat) : Int) + (pw : Int) ≤ ((C * pw : Nat) : Int) := by
      have h7 : k % C * pw + pw ≤ C * pw := by
        calc k % C * pw + pw = (k % C + 1) * pw := (Nat.succ_mul _ pw).symm
          _ ≤ C * pw := Nat.mul_le_mul_right pw hc2
      exact_mod_cast h7
    have hycell : ((k / C * ph : Nat) : Int) + (ph : Int) ≤ ((R * ph : Nat) : Int) := by
      have h8 : k / C * ph + ph ≤ R * ph := by
        calc k / C * ph + ph = (k / C + 1) * ph := (Nat.succ_mul _ ph).symm
          _ ≤ R * ph := Nat.mul_le_mul_right ph hr2
      exact_mod_cast h8
    refine ⟨hxlow, ?_, hylow, ?_⟩
    · have h9 : q.1 < sp.1 + ((k % C * pw : Nat) : Int) + (pw : Int) := ha2
      linarith
    · have h10 : q.2 < sp.2 + ((k / C * ph : Nat) : Int) + (ph : Int) := hb2
      linarith

/-! ## C2: grid creation and exact disjoint tiling -/

/-- C2: with positive computed piece sizes, create_puzzle_pieces returns
rows times cols pieces in row-major order, the piece of cell (row, col)
having the computed size and target origin plus (col times width, row
times height); and the target rectangles tile the covered region exactly
and disjointly: each point of the region lies in the target of exactly
one piece. -/
theorem create_puzzle_pieces_grid (image : Surface) (R C : Nat)
    (sp : Int × Int) (hpw : 0 < image.w / C) (hph : 0 < image.h / R) :
    (create_puzzle_pieces image R C sp).length = R * C ∧
    (∀ r c, r < R → c < C →
      (create_puzzle_pieces image R C sp)[r * C + c]? =
        some (PuzzlePiece.init (r * C + c) ⟨image.w / C, image.h / R⟩
          (sp.1 + ((c * (image.w / C) : Nat) : Int),
           sp.2 + ((r * (image.h / R) : Nat) : Int)))) ∧
    (∀ q : Int × Int,
      (sp.1 ≤ q.1 ∧ q.1 < sp.1 + ((C * (image.w / C) : Nat) : Int) ∧
       sp.2 ≤ q.2 ∧ q.2 < sp.2 + ((R * (image.h / R) : Nat) : Int)) ↔
      ∃! k : Nat, ∃ pc, (create_puzzle_pieces image R C sp)[k]? = some pc ∧
        targetContains pc q) := by
  have hC : 0 < C := by
    rcases Nat.eq_zero_or_pos C with h | h
    · exfalso
      subst h
      simp [Nat.div_zero] at hpw
    · exact h
  rw [create_puzzle_pieces_eq_gridPieces]
  exact ⟨flatMap_range_map_length _ R C,
    fun r c hr hc => flatMap_range_map_getElem _ R C r c hr hc,
    fun q => gridPieces_tiling _ _ R C sp hpw hph hC q⟩

/-- Witness for C2: the 2 x 2 grid of a 100 x 100 image at origin (0, 0)
consists of four 50 x 50 pieces with targets (0,0), (50,0), (0,50),
(50,50). -/
theorem create_puzzle_pieces_grid_witness :
    ((0 : Nat) < 50 ∧ (0 : Nat) < 50) ∧
    (create_puzzle_pieces ⟨100, 100⟩ 2 2 (0, 0) =
      [PuzzlePiece.init 0 ⟨50, 50⟩ (0, 0), PuzzlePiece.init 1 ⟨50, 50⟩ (50, 0),
       PuzzlePiece.init 2 ⟨50, 50⟩ (0, 50),
       PuzzlePiece.init 3 ⟨50, 50⟩ (50, 50)]) ∧
    ((create_puzzle_pieces ⟨100, 100⟩ 2 2 (0, 0)).length = 2 * 2 ∧
     (∀ r c, r < 2 → c < 2 →
       (create_puzzle_pieces ⟨100, 100⟩ 2 2 (0, 0))[r * 2 + c]? =
         some (PuzzlePiece.init (r * 2 + c) ⟨50, 50⟩
           (0 + ((c * 50 : Nat) : Int), 0 + ((r * 50 : Nat) : Int)))) ∧
     (∀ q : Int × Int,
       ((0 : Int) ≤ q.1 ∧ q.1 < 0 + ((2 * 50 : Nat) : Int) ∧
        (0 : Int) ≤ q.2 ∧ q.2 < 0 + ((2 * 50 : Nat) : Int)) ↔
       ∃! k : Nat, ∃ pc,
         (create_puzzle_pieces ⟨100, 100⟩ 2 2 (0, 0))[k]? = some pc ∧
         targetContains pc q)) :=
  ⟨⟨by decide, by decide⟩, by decide,
    create_puzzle_pieces_grid ⟨100, 100⟩ 2 2 (0, 0) (by decide) (by decide)⟩

/-! ## C7: no dimension validation in create_puzzle_pieces -/

/-- Counterexample to C7: a 1 x 1 image on a 3 x 3 grid gives computed
piece width and height zero, yet create_puzzle_pieces does not fail and
returns nine constructed pieces, so no InvalidDimensions failure happens
before (or instead of) construction. -/
theorem create_puzzle_pieces_no_dim_check_cex :
    (1 : Nat) / 3 = 0 ∧
    (create_puzzle_pieces ⟨1, 1⟩ 3 3 (50, 50)).length = 9 ∧
    ∀ pc ∈ create_puzzle_pieces ⟨1, 1⟩ 3 3 (50, 50),
      pc.image.w = 0 ∧ pc.image.h = 0 := by decide

/-- C7 amended: create_puzzle_pieces performs no dimension check at all;
for every image and grid, including those whose computed piece width or
height is zero, it returns exactly rows times cols pieces, each carrying
the computed (possibly zero) piece size. -/
theorem create_puzzle_pieces_total (image : Surface) (R C : Nat)
    (sp : Int × Int) :
    (create_puzzle_pieces image R C sp).length = R * C ∧
    ∀ pc ∈ create_puzzle_pieces image R C sp,
      pc.image.w = image.w / C ∧ pc.image.h = image.h / R := by
  constructor
  · rw [create_puzzle_pieces_eq_gridPieces]
    exact flatMap_range_map_length _ R C
  · intro pc hm
    simp only [create_puzzle_pieces, List.mem_flatMap, List.mem_map,
      List.mem_range] at hm
    obtain ⟨row, hrow, col, hcol, rfl⟩ := hm
    exact ⟨rfl, rfl⟩

/-- Witness for the amended C7 at the degenerate 1 x 1 image. -/
theorem create_puzzle_pieces_total_witness :
    (create_puzzle_pieces ⟨1, 1⟩ 3 3 (50, 50)).length = 3 * 3 ∧
    ∀ pc ∈ create_puzzle_pieces ⟨1, 1⟩ 3 3 (50, 50),
      pc.image.w = 1 / 3 ∧ pc.image.h = 1 / 3 :=
  create_puzzle_pieces_total ⟨1, 1⟩ 3 3 (50, 50)

/-! ## C8: shuffle_pieces crashes on oversized pieces -/

/-- An oracle that always draws the lower end of the range. -/
def lowRand : Nat → Int → Int → Int := fun _ a _ => a

/-- A piece wider than the 800 x 600 screen. -/
def bigPiece : PuzzlePiece :=
  { pid := 7, image := ⟨900, 100⟩, correct_pos := (0, 0),
    rect := ⟨0, 0, 900, 100⟩, moving := false }

/-- Counterexample to C8: on a piece wider than the screen the range
passed to randint is negative, random.randint raises ValueError, and
shuffle_pieces fails instead of clamping. -/
theorem shuffle_pieces_crash_cex :
    (800 : Nat) < bigPiece.rect.w ∧
    shuffle_pieces lowRand [bigPiece] ⟨0, 0, 800, 600⟩ 0 = none := by decide

/-- C8 amended: shuffle_pieces does not clamp; it fails whenever some
piece exceeds the screen in width or height, and when every piece fits it
succeeds with every piece drawn inside the screen: each top-left is taken
from the inclusive range 0 to screen size minus piece size, so the whole
piece lies within bounds. -/
theorem shuffle_pieces_in_bounds (rnd : Nat → Int → Int → Int)
    (hrnd : ∀ k a b, a ≤ b → a ≤ rnd k a b ∧ rnd k a b ≤ b)
    (pieces : List PuzzlePiece) (screen_rect : Rect)
    (hfit : ∀ pc ∈ pieces,
      pc.rect.w ≤ screen_rect.w ∧ pc.rect.h ≤ screen_rect.h) :
    ∀ k, ∃ res, shuffle_pieces rnd pieces screen_rect k = some res ∧
      ∀ pc ∈ res,
        0 ≤ pc.rect.x ∧ pc.rect.x + pc.rect.w ≤ (screen_rect.w : Int) ∧
        0 ≤ pc.rect.y ∧ pc.rect.y + pc.rect.h ≤ (screen_rect.h : Int) := by
  induction pieces with
  | nil =>
    intro k
    exact ⟨[], rfl, by simp⟩
  | cons pc ps ih =>
    intro k
    have hfit1 := hfit pc (List.mem_cons_self pc ps)
    have hfit2 : ∀ q ∈ ps, q.rect.w ≤ screen_rect.w ∧ q.rect.h ≤ screen_rect.h :=
      fun q hq => hfit q (List.mem_cons_of_mem pc hq)
    have hxle : (0 : Int) ≤ (screen_rect.w : Int) - (pc.rect.w : Int) := by
      have h := hfit1.1
      omega
    have hyle : (0 : Int) ≤ (screen_rect.h : Int) - (pc.rect.h : Int) := by
      have h := hfit1.2
      omega
    obtain ⟨res, hres, hbnd⟩ := ih hfit2 (k + 2)
    obtain ⟨hx0, hx1⟩ := hrnd k 0 ((screen_rect.w : Int) - (pc.rect.w : Int)) hxle
    obtain ⟨hy0, hy1⟩ :=
      hrnd (k + 1) 0 ((screen_rect.h : Int) - (pc.rect.h : Int)) hyle
    refine ⟨{ pc with rect := { pc.rect with
        x := rnd k 0 ((screen_rect.w : Int) - (pc.rect.w : Int)),
        y := rnd (k + 1) 0 ((screen_rect.h : Int) - (pc.rect.h : Int)) } } :: res,
      ?_, ?_⟩
    · simp only [shuffle_pieces, randint, if_pos hxle, if_pos hyle, hres]
    · intro q hq
      rcases List.mem_cons.mp hq with h | h
      · subst h
        refine ⟨hx0, by simp; omega, hy0, by simp; omega⟩
      · exact hbnd q h

/-- Witness for the amended C8: a fitting piece is placed inside the
800 x 600 screen by the lower-end oracle. -/
theorem shuffle_pieces_in_bounds_witness :
    (∀ k a b, a ≤ b → a ≤ lowRand k a b ∧ lowRand k a b ≤ b) ∧
    (∀ pc ∈ [pieceNear], pc.rect.w ≤ (800 : Nat) ∧ pc.rect.h ≤ (600 : Nat)) ∧
    (∃ res, shuffle_pieces lowRand [pieceNear] ⟨0, 0, 800, 600⟩ 0 = some res ∧
      ∀ pc ∈ res, 0 ≤ pc.rect.x ∧ pc.rect.x + pc.rect.w ≤ (800 : Int) ∧
        0 ≤ pc.rect.y ∧ pc.rect.y + pc.rect.h ≤ (600 : Int)) :=
  ⟨fun _ a _ h => ⟨le_refl a, h⟩, by decide,
    shuffle_pieces_in_bounds lowRand (fun _ a _ h => ⟨le_refl a, h⟩)
      [pieceNear] ⟨0, 0, 800, 600⟩ (by decide) 0⟩

/-! ## Drag-controller invariant machinery -/

/-- In a DragInv state with empty selection no piece is moving. -/
theorem DragInv_idle_all_false (s : GameState) (hinv : DragInv s)
    (hidle : s.selected = none) : ∀ pc ∈ s.pieces, pc.moving = false := by
  rcases hinv with ⟨_, h⟩ | ⟨l, pc, _, hsel, _, _⟩
  · exact h
  · rw [hidle] at hsel
    exact absurd hsel (by simp)

/-- A DragInv state has at most one moving piece. -/
theorem movingCount_le_one (s : GameState) (hinv : DragInv s) :
    movingCount s.pieces ≤ 1 := by
  rcases hinv with ⟨_, h⟩ | ⟨l, pc, hp, _, hm, hl⟩
  · have h0 : s.pieces.filter (fun pc => pc.moving) = [] :=
      List.filter_eq_nil_iff.mpr (by intro a ha; simp [h a ha])
    simp [movingCount, h0]
  · have h0 : l.filter (fun pc => pc.moving) = [] :=
      List.filter_eq_nil_iff.mpr (by intro a ha; simp [hl a ha])
    simp [movingCount, hp, List.filter_append, h0, hm]

/-- Every event preserves DragInv, as long as mouse-downs only arrive in
the idle state. -/
theorem DragInv_step (s : GameState) (e : Event) (hinv : DragInv s)
    (hwf : e.isDown → s.selected = none) : DragInv (handleEvent s e) := by
  cases e with
  | mouseDown pos =>
    have hidle : s.selected = none := hwf trivial
    have hall := DragInv_idle_all_false s hinv hidle
    cases hhit : extractHit pos s.pieces with
    | none =>
      simp only [handleEvent, hhit]
      exact hinv
    | some v =>
      obtain ⟨rest, pc⟩ := v
      right
      refine ⟨rest, { pc with moving := true }, ?_, ?_, rfl, ?_⟩
      · simp [handleEvent, hhit]
      · simp [handleEvent, hhit]
      · intro q hq
        exact hall q ((extractHit_mem pos s.pieces rest pc hhit).2 q hq)
  | mouseMove pos =>
    cases hsel : s.selected with
    | none =>
      simp only [handleEvent, hsel]
      exact hinv
    | some j =>
      rcases hinv with ⟨hs, _⟩ | ⟨l, pc0, hp, hsel2, hm, hl⟩
      · rw [hsel] at hs
        exact absurd hs (by simp)
      · have hj : j = l.length := by
          rw [hsel] at hsel2
          exact Option.some.inj hsel2
        have hget : s.pieces[j]? = some pc0 := by
          rw [hp, hj]
          exact List.getElem?_concat_length l pc0
        right
        refine ⟨l, movedPiece pc0 pos s.offset_x s.offset_y, ?_, ?_, hm, hl⟩
        · simp only [handleEvent, hsel, hget, hm, if_true]
          rw [hp, hj]
          exact set_append_singleton l pc0 _
        · simp only [handleEvent, hsel, hget, hm, if_true]
          rw [hj]
  | mouseUp =>
    cases hsel : s.selected with
    | none =>
      simp only [handleEvent, hsel]
      exact hinv
    | some j =>
      rcases hinv with ⟨hs, _⟩ | ⟨l, pc0, hp, hsel2, hm, hl⟩
      · rw [hsel] at hs
        exact absurd hs (by simp)
      · have hj : j = l.length := by
          rw [hsel] at hsel2
          exact Option.some.inj hsel2
        have hget : s.pieces[j]? = some pc0 := by
          rw [hp, hj]
          exact List.getElem?_concat_length l pc0
        left
        constructor
        · simp [handleEvent, hsel, hget]
        · intro q hq
          simp only [handleEvent, hsel, hget] at hq
          rw [hp, hj, set_append_singleton] at hq
          rcases List.mem_append.mp hq with h1 | h2
          · exact hl q h1
          · have hq2 : q = (snap_to_place { pc0 with moving := false }).1 := by
              simpa using h2
            rw [hq2, snap_to_place_moving]
  | other => exact hinv

/-- DragInv is preserved along any well-formed event sequence. -/
theorem DragInv_run (s : GameState) (es : List Event) (hinv : DragInv s)
    (hwf : WFFrom s es) : DragInv (runEvents s es) := by
  induction es generalizing s with
  | nil => exact hinv
  | cons e es ih =>
    obtain ⟨h1, h2⟩ := hwf
    simp only [runEvents, List.foldl_cons]
    exact ih (handleEvent s e) (DragInv_step s e hinv h1) h2

/-- The state is in the middle of a drag of the piece with ghost id i: the
selected piece is last in the render list, moving, carries id i, and no
other piece moves. -/
def DraggingOn (s : GameState) (i : Nat) : Prop :=
  ∃ l pc, s.pieces = l ++ [pc] ∧ s.selected = some l.length ∧
    pc.moving = true ∧ pc.pid = i ∧ ∀ q ∈ l, q.moving = false

/-- Mouse motion keeps the drag on the same piece. -/
theorem DraggingOn_move (s : GameState) (i : Nat) (h : DraggingOn s i)
    (e : Event) (hmv : e.isMove) : DraggingOn (handleEvent s e) i := by
  cases e with
  | mouseMove pos =>
    obtain ⟨l, pc0, hp, hsel, hm, hi, hl⟩ := h
    have hget : s.pieces[l.length]? = some pc0 := by
      rw [hp]
      exact List.getElem?_concat_length l pc0
    refine ⟨l, movedPiece pc0 pos s.offset_x s.offset_y, ?_, ?_, hm, hi, hl⟩
    · simp only [handleEvent, hsel, hget, hm, if_true]
      rw [hp]
      exact set_append_singleton l pc0 _
    · simp only [handleEvent, hsel, hget, hm, if_true]
  | mouseDown pos => exact hmv.elim
  | mouseUp => exact hmv.elim
  | other => exact hmv.elim

/-- Any run of motions keeps the drag on the same piece. -/
theorem DraggingOn_runMoves (s : GameState) (i : Nat) (ms : List Event)
    (h : DraggingOn s i) (hms : ∀ e ∈ ms, e.isMove) :
    DraggingOn (runEvents s ms) i := by
  induction ms generalizing s with
  | nil => exact h
  | cons e es ih =>
    simp only [runEvents, List.foldl_cons]
    exact ih (handleEvent s e)
      (DraggingOn_move s i h e (hms e (List.mem_cons_self e es)))
      (fun e2 h2 => hms e2 (List.mem_cons_of_mem e h2))

/-- A drag on piece i has exactly one moving piece, namely piece i. -/
theorem DraggingOn_count (s : GameState) (i : Nat) (h : DraggingOn s i) :
    movingCount s.pieces = 1 ∧ draggingId s = some i := by
  obtain ⟨l, pc, hp, hsel, hm, hi, hl⟩ := h
  constructor
  · have h0 : l.filter (fun pc => pc.moving) = [] :=
      List.filter_eq_nil_iff.mpr (by intro a ha; simp [hl a ha])
    simp [movingCount, hp, List.filter_append, h0, hm]
  · have hget : s.pieces[l.length]? = some pc := by
      rw [hp]
      exact List.getElem?_concat_length l pc
    simp [draggingId, hsel, hget, hi]

/-- A mouse-down that hits a piece from an idle DragInv state starts a
drag on exactly that piece. -/
theorem down_hit_DraggingOn (s : GameState) (hinv : DragInv s)
    (hidle : s.selected = none) (pos : Int × Int)
    (rest : List PuzzlePiece) (pc : PuzzlePiece)
    (hhit : extractHit pos s.pieces = some (rest, pc)) :
    DraggingOn (handleEvent s (.mouseDown pos)) pc.pid := by
  have hall := DragInv_idle_all_false s hinv hidle
  refine ⟨rest, { pc with moving := true }, ?_, ?_, rfl, rfl, ?_⟩
  · simp [handleEvent, hhit]
  · simp [handleEvent, hhit]
  · intro q hq
    exact hall q ((extractHit_mem pos s.pieces rest pc hhit).2 q hq)

/-! ## C3: the drag invariant -/

/-- Counterexample to C3 as stated: from an idle two-piece state, the
pointer-event sequence down-down (no release in between) leaves two pieces
with the dragging flag set, because the MOUSEBUTTONDOWN handler never
clears the flag of the previously selected piece. -/
theorem drag_invariant_cex :
    twoPieceState.selected = none ∧
    (∀ pc ∈ twoPieceState.pieces, pc.moving = false) ∧
    movingCount (runEvents twoPieceState
      [Event.mouseDown (50, 60), Event.mouseDown (85, 85)]).pieces = 2 := by
  decide

/-- C3 amended: for pointer-event sequences in which every mouse-down
arrives while no piece is selected (downs and ups alternate, as a physical
left button guarantees), every reachable state has at most one piece with
the dragging flag set; and after a mouse-down that hits a piece, along any
run of mouse motions until the matching release, exactly one piece is
dragging and its identity is that of the hit piece throughout. -/
theorem drag_invariant (s0 : GameState) (h0sel : s0.selected = none)
    (h0mov : ∀ pc ∈ s0.pieces, pc.moving = false)
    (es : List Event) (hwf : WFFrom s0 es) :
    movingCount (runEvents s0 es).pieces ≤ 1 ∧
    ((runEvents s0 es).selected = none →
      ∀ pos rest pc,
        extractHit pos (runEvents s0 es).pieces = some (rest, pc) →
        ∀ ms, (∀ e ∈ ms, e.isMove) →
          movingCount (runEvents
            (handleEvent (runEvents s0 es) (.mouseDown pos)) ms).pieces = 1 ∧
          draggingId (runEvents
            (handleEvent (runEvents s0 es) (.mouseDown pos)) ms) =
            some pc.pid) := by
  have hinv : DragInv (runEvents s0 es) :=
    DragInv_run s0 es (Or.inl ⟨h0sel, h0mov⟩) hwf
  constructor
  · exact movingCount_le_one _ hinv
  · intro hidle pos rest pc hhit ms hms
    have h1 := down_hit_DraggingOn _ hinv hidle pos rest pc hhit
    have h2 := DraggingOn_runMoves _ _ ms h1 hms
    exact DraggingOn_count _ _ h2

/-- Witness for the amended C3: from the idle two-piece state, a down that
hits pieceNear followed by a motion leaves exactly pieceNear dragging. -/
theorem drag_invariant_witness :
    twoPieceState.selected = none ∧
    (∀ pc ∈ twoPieceState.pieces, pc.moving = false) ∧
    WFFrom twoPieceState [] ∧
    (runEvents twoPieceState []).selected = none ∧
    extractHit (50, 60) (runEvents twoPieceState []).pieces =
      some ([pieceFar], pieceNear) ∧
    (∀ e ∈ [Event.mouseMove (200, 200)], e.isMove) ∧
    (movingCount (runEvents
        (handleEvent (runEvents twoPieceState []) (.mouseDown (50, 60)))
        [Event.mouseMove (200, 200)]).pieces = 1 ∧
      draggingId (runEvents
        (handleEvent (runEvents twoPieceState []) (.mouseDown (50, 60)))
        [Event.mouseMove (200, 200)]) = some pieceNear.pid) :=
  ⟨rfl, by decide, trivial, rfl, by decide,
    by intro e he; simp at he; subst he; trivial,
    (drag_invariant twoPieceState rfl (by decide) [] trivial).2 rfl (50, 60)
      [pieceFar] pieceNear (by decide) [Event.mouseMove (200, 200)]
      (by intro e he; simp at he; subst he; trivial)⟩
